import Mathlib

/-!
Verification development for the flyagi real-time orchestration subsystem.

Shallow embedding of:
* `internal/selfmod/engine.go` — the change engine (validation, generation,
  approve-and-apply, reject, history).
* `internal/ws/hub.go` — the envelope wire format and client send queue.
* `internal/ws/handlers.go` — the selfmod approve/reject handlers and
  provider selection.

Go strings are Lean `String`s; Go byte lengths are `String.utf8ByteSize`;
the filesystem is a pure association list from relative path to content,
with an `osFail` oracle standing in for operating-system write/remove
failures; the go-diff library (`diffmatchpatch`) is an abstract parameter
`dmp : String → String → String`; wall-clock time is a `Nat`; UUIDs are
caller-supplied fresh strings.  Go's in-place mutation of `*ChangeRequest`
values that are shared between the live request table and the history log
is modelled by a heap (`List ChangeRequest`) addressed by `Nat` indices,
with both the request table and the history holding indices, exactly
mirroring the pointer sharing in the source.
-/

/-- Model of Go `strings.HasPrefix s p` (byte prefix; for the ASCII
protected-path constants this coincides with character-list prefix). -/
def strHasPre (s p : String) : Bool := p.toList.isPrefixOf s.toList

/-- Decide whether `sub` occurs as a contiguous infix of a character list. -/
def hasInfixL (sub : List Char) : List Char → Bool
  | [] => sub.isEmpty
  | c :: rest => sub.isPrefixOf (c :: rest) || hasInfixL sub rest

/-- Model of Go `strings.Contains s sub`. -/
def strHasSub (s sub : String) : Bool := hasInfixL sub.toList s.toList

/-- Model of Go `strings.HasSuffix s p`. -/
def strHasSuf (s p : String) : Bool := p.toList.isSuffixOf s.toList

/-- Split a character list at a separator character, modelling Go
`strings.Split`; an empty input yields one empty element, as in Go. -/
def splitChars (sep : Char) : List Char → List (List Char)
  | [] => [[]]
  | c :: rest =>
    if c = sep then [] :: splitChars sep rest
    else
      match splitChars sep rest with
      | [] => [[c]]
      | h :: t => (c :: h) :: t

/-- Join path elements with `'/'`, modelling Go `strings.Join elems "/"`. -/
def joinSlash : List (List Char) → List Char
  | [] => []
  | [e] => e
  | e :: rest => e ++ '/' :: joinSlash rest

/-- Core loop of Go `path/filepath.Clean` (unix rules): process the
slash-separated elements left to right, keeping an output stack (held
reversed).  Empty and `"."` elements are dropped; `".."` pops a non-`".."`
stack entry, is dropped at the root, and is kept otherwise. -/
def cleanStack (rooted : Bool) : List (List Char) → List (List Char) → List (List Char)
  | stack, [] => stack
  | stack, e :: rest =>
    if e = [] ∨ e = ['.'] then cleanStack rooted stack rest
    else if e = ['.', '.'] then
      match stack with
      | [] => if rooted then cleanStack rooted [] rest else cleanStack rooted [['.', '.']] rest
      | top :: stack' =>
        if top = ['.', '.'] then cleanStack rooted (['.', '.'] :: top :: stack') rest
        else cleanStack rooted stack' rest
    else cleanStack rooted (e :: stack) rest

/-- Model of Go `path/filepath.Clean` on unix paths. -/
def pathClean (p : String) : String :=
  match p.toList with
  | [] => "."
  | c :: cs =>
    let rooted := c = '/'
    let stack := (cleanStack rooted [] (splitChars '/' (c :: cs))).reverse
    let joined := joinSlash stack
    if rooted then
      if joined = [] then "/" else ⟨'/' :: joined⟩
    else
      if joined = [] then "." else ⟨joined⟩

/-- Entries of the `protectedPaths` map in `engine.go` (the Go map's keys;
iteration order is irrelevant to whether some entry matches). -/
def protectedPaths : List String :=
  ["Dockerfile", "fly.toml", ".github", ".env", ".env.local", ".env.production"]

/-- `FileChange` from `engine.go`: one proposed file modification. -/
structure FileChange where
  path : String
  action : String
  newContent : String
deriving DecidableEq, Repr

/-- `FileDiff` from `engine.go`: a unified diff for one file. -/
structure FileDiff where
  path : String
  diff : String
deriving DecidableEq, Repr

/-- `ChangeRequest` from `engine.go`; `createdAt` models `time.Time` as an
abstract timestamp. -/
structure ChangeRequest where
  id : String
  description : String
  changes : List FileChange
  diffs : List FileDiff
  status : String
  createdAt : Nat
deriving DecidableEq, Repr

/-- Error kinds produced by `validateChange` in `engine.go` (the source
formats them as strings via `fmt.Errorf`; only their identity matters). -/
inductive ValidationError where
  | protectedPath (path : String)
  | pathTraversal (path : String)
  | invalidAction (action : String)
  | payloadTooLarge (path : String) (size : Nat)
deriving DecidableEq, Repr

/-- `Engine.validateChange` from `engine.go`, checks in source order:
protected-path prefix scan over the cleaned path, `".."` substring check,
action whitelist, then the 1 MiB (`1<<20` bytes) content ceiling. -/
def validateChange (change : FileChange) : Option ValidationError :=
  let cleanPath := pathClean change.path
  if protectedPaths.any (fun prot => strHasPre cleanPath prot) then
    some (ValidationError.protectedPath change.path)
  else if strHasSub cleanPath ".." then
    some (ValidationError.pathTraversal change.path)
  else if change.action = "create" ∨ change.action = "modify" ∨ change.action = "delete" then
    if change.newContent.utf8ByteSize > 1048576 then
      some (ValidationError.payloadTooLarge change.path change.newContent.utf8ByteSize)
    else none
  else
    some (ValidationError.invalidAction change.action)

example : pathClean "src/x.go" = "src/x.go" := by decide
example : pathClean "./a//b/../c" = "a/c" := by decide
example : pathClean "a/../../b" = "../b" := by decide
example : pathClean "" = "." := by decide
example : validateChange ⟨"src/x.go", "create", "package x\n"⟩ = none := by decide
example : validateChange ⟨"Dockerfile", "modify", "FROM scratch"⟩ =
    some (ValidationError.protectedPath "Dockerfile") := by decide
example : validateChange ⟨"Dockerfile.backup", "modify", "x"⟩ =
    some (ValidationError.protectedPath "Dockerfile.backup") := by decide
example : validateChange ⟨"a/../../b", "create", "x"⟩ =
    some (ValidationError.pathTraversal "a/../../b") := by decide
example : validateChange ⟨"a/b.go", "rename", "x"⟩ =
    some (ValidationError.invalidAction "rename") := by decide

/-- Working tree model: an association list from relative path to file
content (first match wins). -/
abbrev Fs := List (String × String)

/-- Read a file, modelling `os.ReadFile` with "not exists" mapped to
`none`. -/
def fsRead (fs : Fs) (p : String) : Option String :=
  (fs.find? (fun kv => kv.1 = p)).map (fun kv => kv.2)

/-- Write full file content, modelling `os.WriteFile` (with `os.MkdirAll`
folded in). -/
def fsWrite (fs : Fs) (p c : String) : Fs :=
  (p, c) :: fs.filter (fun kv => ¬ kv.1 = p)

/-- Remove a file, modelling `os.Remove`; removing an absent path is a
no-op (the source tolerates `os.IsNotExist`). -/
def fsRemove (fs : Fs) (p : String) : Fs :=
  fs.filter (fun kv => ¬ kv.1 = p)

/-- `Engine.generateDiffs` from `engine.go`: one `FileDiff` per change, in
order; the old content is read from disk only for `modify`/`delete`
(missing file read as empty), the new content is emptied for `delete`, and
the diff text itself is produced by the external `diffmatchpatch` library,
abstracted as `dmp`. -/
def generateDiffs (dmp : String → String → String) (fs : Fs)
    (changes : List FileChange) : List FileDiff :=
  changes.map (fun change =>
    let oldContent :=
      if change.action = "modify" ∨ change.action = "delete" then
        (fsRead fs change.path).getD ""
      else ""
    let newContent := if change.action = "delete" then "" else change.newContent
    { path := change.path, diff := dmp oldContent newContent })

/-- Engine state from `engine.go`: Go holds `*ChangeRequest` pointers in
both the `requests` table and the `history` slice; the shared mutable
pointees are modelled as cells of `heap`, addressed by index from both
tables. -/
structure EngineState where
  heap : List ChangeRequest
  requests : List (String × Nat)
  history : List Nat
deriving DecidableEq, Repr

/-- `NewEngine`: empty store and history. -/
def newEngine : EngineState := ⟨[], [], []⟩

/-- Model of `e.requests.Load(id)`: resolve a request id to its heap cell
index. -/
def lookupReq (e : EngineState) (id : String) : Option Nat :=
  (e.requests.find? (fun kv => kv.1 = id)).map (fun kv => kv.2)

/-- Model of `Engine.GetRequest`. -/
def getRequest (e : EngineState) (id : String) : Option ChangeRequest :=
  match lookupReq e id with
  | none => none
  | some n => e.heap[n]?

/-- The validation loop of `GenerateChanges`: first failing change aborts
the whole generation. -/
def validateAll : List FileChange → Option ValidationError
  | [] => none
  | c :: rest =>
    match validateChange c with
    | some err => some err
    | none => validateAll rest

/-- Result of `GenerateChanges`: the error if any, the engine state after
the call, and the returned request if any. -/
structure GenResult where
  err : Option ValidationError
  engine : EngineState
  request : Option ChangeRequest
deriving Repr

/-- `Engine.GenerateChanges` from `engine.go`, modelled from the parsed
LLM response onward (context collection, streaming and JSON parsing touch
only the prompt and the error path before any state change): validate all
changes, compute diffs, then store a fresh `pending` request in the live
table and append the same heap cell to history. -/
def generateChanges (dmp : String → String → String) (e : EngineState) (fs : Fs)
    (description : String) (changes : List FileChange)
    (freshId : String) (now : Nat) : GenResult :=
  match validateAll changes with
  | some err => ⟨some err, e, none⟩
  | none =>
    let diffs := generateDiffs dmp fs changes
    let cr : ChangeRequest :=
      ⟨freshId, description, changes, diffs, "pending", now⟩
    let n := e.heap.length
    ⟨none, ⟨e.heap ++ [cr], (freshId, n) :: e.requests, e.history ++ [n]⟩, some cr⟩

/-- Error kinds of `Engine.ApproveAndApply`. -/
inductive ApplyErr where
  | notFound (id : String)
  | invalidState (status : String)
  | writeFailed (path : String)
deriving DecidableEq, Repr

/-- One iteration of the apply loop in `ApproveAndApply`: `create`/`modify`
write the new content, `delete` removes the path; `osFail` is the oracle
for operating-system failures of the write/remove at that path.  The Go
`switch` has no default case, so any other action is a no-op. -/
def applyOne (osFail : String → Bool) (fs : Fs) (c : FileChange) : Except ApplyErr Fs :=
  if c.action = "create" ∨ c.action = "modify" then
    if osFail c.path then Except.error (ApplyErr.writeFailed c.path)
    else Except.ok (fsWrite fs c.path c.newContent)
  else if c.action = "delete" then
    if osFail c.path then Except.error (ApplyErr.writeFailed c.path)
    else Except.ok (fsRemove fs c.path)
  else Except.ok fs

/-- The apply loop of `ApproveAndApply` over the change list, in list
order; on the first failure the loop stops, returning the error and the
partially updated tree. -/
def applyList (osFail : String → Bool) : Fs → List FileChange → Option ApplyErr × Fs
  | fs, [] => (none, fs)
  | fs, c :: rest =>
    match applyOne osFail fs c with
    | Except.error err => (some err, fs)
    | Except.ok fs' => applyList osFail fs' rest

/-- The pure effect of applying a change list in order when no
operating-system failure occurs: a left fold of write/remove. -/
def applyPure (fs : Fs) (cs : List FileChange) : Fs :=
  cs.foldl (fun f c =>
    if c.action = "create" ∨ c.action = "modify" then fsWrite f c.path c.newContent
    else if c.action = "delete" then fsRemove f c.path
    else f) fs

/-- Overwrite the status of heap cell `n`, modelling the in-place
`cr.Status = ...` assignment through the shared pointer. -/
def setStatus (e : EngineState) (n : Nat) (st : String) : EngineState :=
  match e.heap[n]? with
  | none => e
  | some cr => { e with heap := e.heap.set n { cr with status := st } }

/-- Result of `Engine.ApproveAndApply`: error if any, plus the engine and
working tree after the call (the source mutates both in place). -/
structure ApplyResult where
  err : Option ApplyErr
  engine : EngineState
  fs : Fs
deriving Repr

/-- `Engine.ApproveAndApply` from `engine.go`: look the request up, fail
with `notFound` for an unknown id, fail with `invalidState` when the
status is not `pending` (leaving everything untouched), otherwise apply
every change in list order and only then flip the status to `approved`;
a failure in the middle of the loop keeps the status `pending` and leaves
the earlier writes in place. -/
def approveAndApply (osFail : String → Bool) (e : EngineState) (fs : Fs)
    (requestID : String) : ApplyResult :=
  match lookupReq e requestID with
  | none => ⟨some (ApplyErr.notFound requestID), e, fs⟩
  | some n =>
    match e.heap[n]? with
    | none => ⟨some (ApplyErr.notFound requestID), e, fs⟩
    | some cr =>
      if cr.status = "pending" then
        match applyList osFail fs cr.changes with
        | (some err, fs') => ⟨some err, e, fs'⟩
        | (none, fs') => ⟨none, setStatus e n "approved", fs'⟩
      else ⟨some (ApplyErr.invalidState cr.status), e, fs⟩

/-- Error kind of `Engine.Reject`: the source's only failure is an unknown
id. -/
inductive RejectErr where
  | notFound (id : String)
deriving DecidableEq, Repr

/-- Result of `Engine.Reject`. -/
structure RejectResult where
  err : Option RejectErr
  engine : EngineState
deriving Repr

/-- `Engine.Reject` from `engine.go`: look the request up and set its
status to `rejected`; the source performs no check of the current status
before the assignment. -/
def reject (e : EngineState) (requestID : String) : RejectResult :=
  match lookupReq e requestID with
  | none => ⟨some (RejectErr.notFound requestID), e⟩
  | some n => ⟨none, setStatus e n "rejected"⟩

/-- `Engine.History` from `engine.go`: the history entries in creation
order, resolved through the shared heap (the Go slice copy copies the
pointers, not the pointees). -/
def historyList (e : EngineState) : List ChangeRequest :=
  e.history.filterMap (fun n => e.heap[n]?)

/-- Everything of a `ChangeRequest` except its mutable status field. -/
def requestCore (cr : ChangeRequest) :
    String × String × List FileChange × List FileDiff × Nat :=
  (cr.id, cr.description, cr.changes, cr.diffs, cr.createdAt)

/-- Concrete stand-in for the diff library used to evaluate concrete runs. -/
def dmp0 : String → String → String := fun o n => o ++ "|" ++ n

/-- Concrete generation run: one valid create change. -/
def genRes0 : GenResult :=
  generateChanges dmp0 newEngine [] "add X" [⟨"src/x.go", "create", "package x\n"⟩] "req-1" 0

/-- Engine state holding one pending request `req-1`. -/
def e1 : EngineState := genRes0.engine

/-- Result of approving `req-1` with no operating-system failures. -/
def appRes0 : ApplyResult := approveAndApply (fun _ => false) e1 [] "req-1"

/-- Engine state holding `req-1` in status `approved`. -/
def e2 : EngineState := appRes0.engine

example : genRes0.err = none := by decide
example : e1.heap.map (fun cr => cr.status) = ["pending"] := by decide
example : appRes0.err = none := by decide
example : e2.heap.map (fun cr => cr.status) = ["approved"] := by decide
example : appRes0.fs = [("src/x.go", "package x\n")] := by decide
example : (historyList e2).map (fun cr => cr.status) = ["approved"] := by decide
example : (reject e2 "req-1").err = none := by decide

/-- Abstract JSON values, the wire data of the envelope protocol. -/
inductive Json where
  | null
  | bool (b : Bool)
  | num (n : Int)
  | str (s : String)
  | arr (elems : List Json)
  | obj (fields : List (String × Json))

/-- `Envelope` from `hub.go`: `Type` selects the payload schema; the
`json.RawMessage` payload with `omitempty` is modelled as the parsed JSON
value it holds, `none` standing for an empty raw message (omitted on the
wire). -/
structure Envelope where
  type : String
  payload : Option Json

/-- Marshalling of an `Envelope` (`json.Marshal` in `Client.Send`): an
object with the `type` field and, unless the payload is empty, the
`payload` field spliced verbatim. -/
def encodeEnvelope (e : Envelope) : Json :=
  Json.obj (("type", Json.str e.type) ::
    (match e.payload with
     | none => []
     | some p => [("payload", p)]))

/-- First-match field lookup in a JSON object. -/
def lookupField : List (String × Json) → String → Option Json
  | [], _ => none
  | (k, v) :: rest, key => if k = key then some v else lookupField rest key

/-- Unmarshalling of an `Envelope` (`json.Unmarshal` in `readPump`):
requires an object; a present `type` field must be a string, a missing one
leaves the zero value `""`; the `payload` field, if present, is captured
verbatim. -/
def decodeEnvelope (j : Json) : Option Envelope :=
  match j with
  | Json.obj fields =>
    match lookupField fields "type" with
    | some (Json.str t) => some ⟨t, lookupField fields "payload"⟩
    | some _ => none
    | none => some ⟨"", lookupField fields "payload"⟩
  | _ => none

/-- Error of `Client.Send` on a full outbound queue (`ErrSendBufferFull`
in `hub.go`). -/
inductive SendErr where
  | bufferFull
deriving DecidableEq, Repr

/-- Outbound queue capacity: `make(chan []byte, 256)` in `ServeWS`. -/
def sendCapacity : Nat := 256

/-- `Client.Send` from `hub.go`: marshal the envelope (which cannot fail
for payloads that are themselves valid encoded values) and perform a
non-blocking channel send — enqueue when the buffer has room, otherwise
return `ErrSendBufferFull` at once, dropping the message. -/
def clientSend (queue : List Json) (env : Envelope) : Except SendErr (List Json) :=
  if queue.length < sendCapacity then Except.ok (queue ++ [encodeEnvelope env])
  else Except.error SendErr.bufferFull

/-- One `selfmod.status` emission (`sendStatus` in `handlers.go`); the
human-readable message text is not modelled. -/
structure StatusEmit where
  requestID : String
  status : String
  prUrl : String
deriving DecidableEq, Repr

/-- Outcomes of the git/github collaborator calls in the publish sequence
(`git.Service` and `github.Client` are external to the orchestration
core): whether each step succeeds, and the PR URL on success. -/
structure GitOracle where
  createBranchOk : Bool
  commitOk : Bool
  pushOk : Bool
  prOk : Bool
  prUrl : String
  checkoutMainOk : Bool
deriving DecidableEq, Repr

/-- Result of the publish sequence: the emitted `selfmod.status` envelopes
in order, and the engine and working tree afterwards. -/
structure ApproveOutcome where
  emits : List StatusEmit
  engine : EngineState
  fs : Fs
deriving Repr

/-- The publish sequence of `handleSelfModApprove` in `handlers.go` (the
goroutine body, after payload parsing and the engine-configured check):
look the request up (`error` status when absent); when git and github are
both configured, emit `pushing` and create the branch (`error` and stop on
failure); emit `applying` and apply via the engine (`error` and stop on
failure); when configured, emit `pushing`, then commit, push and open the
PR, emitting `error` and stopping at the first failure, and `pr_created`
with the URL on success (the best-effort checkout back to main emits
nothing); when git/github are not configured, emit `applied` instead. -/
def handleSelfModApprove (osFail : String → Bool) (gitConfigured : Bool)
    (g : GitOracle) (e : EngineState) (fs : Fs) (requestID : String) : ApproveOutcome :=
  match getRequest e requestID with
  | none => ⟨[⟨requestID, "error", ""⟩], e, fs⟩
  | some _ =>
    let branchEmits : List StatusEmit :=
      if gitConfigured then [⟨requestID, "pushing", ""⟩] else []
    if gitConfigured ∧ ¬ g.createBranchOk then
      ⟨branchEmits ++ [⟨requestID, "error", ""⟩], e, fs⟩
    else
      let r := approveAndApply osFail e fs requestID
      let applyEmits := branchEmits ++ [⟨requestID, "applying", ""⟩]
      match r.err with
      | some _ => ⟨applyEmits ++ [⟨requestID, "error", ""⟩], r.engine, r.fs⟩
      | none =>
        if gitConfigured then
          let commitEmits := applyEmits ++ [⟨requestID, "pushing", ""⟩]
          if ¬ g.commitOk then ⟨commitEmits ++ [⟨requestID, "error", ""⟩], r.engine, r.fs⟩
          else if ¬ g.pushOk then ⟨commitEmits ++ [⟨requestID, "error", ""⟩], r.engine, r.fs⟩
          else if ¬ g.prOk then ⟨commitEmits ++ [⟨requestID, "error", ""⟩], r.engine, r.fs⟩
          else ⟨commitEmits ++ [⟨requestID, "pr_created", g.prUrl⟩], r.engine, r.fs⟩
        else ⟨applyEmits ++ [⟨requestID, "applied", ""⟩], r.engine, r.fs⟩

/-- Envelopes a handler can emit: a `selfmod.status` envelope or an
`error` envelope (`sendError` in `handlers.go`). -/
inductive HandlerEmit where
  | statusEnv (s : StatusEmit)
  | errorEnv (msg : String)
deriving DecidableEq, Repr

/-- Result of `handleSelfModReject`: emissions and the engine afterwards
(`none` when no engine is configured). -/
structure RejectOutcome where
  emits : List HandlerEmit
  engine : Option EngineState
deriving Repr

/-- `handleSelfModReject` from `handlers.go` (after payload parsing): the
engine's `Reject` is called only when an engine is configured and its
error is discarded; a `rejected` status is then emitted unconditionally —
also when no engine is configured. -/
def handleSelfModReject (engineOpt : Option EngineState) (requestID : String) :
    RejectOutcome :=
  let engine' := engineOpt.map (fun e => (reject e requestID).engine)
  ⟨[HandlerEmit.statusEnv ⟨requestID, "rejected", ""⟩], engine'⟩

/-- `Message` from `provider.go`. -/
structure Message where
  role : String
  content : String
deriving DecidableEq, Repr

/-- `ChatSendPayload` from `handlers.go`. -/
structure ChatSendPayload where
  messages : List Message
  providerID : String
deriving DecidableEq, Repr

/-- The anonymous `selfmod.request` payload struct in `handlers.go`. -/
structure SelfModRequestPayload where
  request : String
  providerID : String
deriving DecidableEq, Repr

/-- `Registry.GetLLM` from `provider.go`, with a provider represented by
its registered identifier: map lookup, error when absent. -/
def getLLM (llms : List String) (name : String) : Except String String :=
  if llms.contains name then Except.ok name
  else Except.error ("LLM provider " ++ name ++ " not found")

/-- Provider selection of `handleChatSend` in `handlers.go`: an empty
`provider_id` falls back to `"anthropic"`, then the registry is consulted;
an `error` envelope is sent only when that lookup fails. -/
def handleChatSendLLM (llms : List String) (p : ChatSendPayload) :
    Except String String :=
  let providerID := if p.providerID = "" then "anthropic" else p.providerID
  getLLM llms providerID

/-- Provider selection of `handleSelfModRequest` in `handlers.go`, the
same fallback as `handleChatSendLLM`. -/
def handleSelfModRequestLLM (llms : List String) (p : SelfModRequestPayload) :
    Except String String :=
  let providerID := if p.providerID = "" then "anthropic" else p.providerID
  getLLM llms providerID

example : decodeEnvelope (encodeEnvelope ⟨"chat.send", none⟩) = some ⟨"chat.send", none⟩ := rfl
example : decodeEnvelope (encodeEnvelope ⟨"chat.chunk", some (Json.str "x")⟩) =
    some ⟨"chat.chunk", some (Json.str "x")⟩ := rfl
example : (handleSelfModReject none "abc").emits =
    [HandlerEmit.statusEnv ⟨"abc", "rejected", ""⟩] := rfl
example : handleChatSendLLM ["anthropic", "gemini"] ⟨[], ""⟩ = Except.ok "anthropic" := rfl

/-- The concrete pending request created by `genRes0`. -/
def cr0 : ChangeRequest :=
  ⟨"req-1", "add X", [⟨"src/x.go", "create", "package x\n"⟩],
    [⟨"src/x.go", "|package x\n"⟩], "pending", 0⟩

example : genRes0.request = some cr0 := by decide
example : e1.heap[0]? = some cr0 := by decide
example : e2.heap[0]? = some { cr0 with status := "approved" } := by decide

/-- Invalidity of a single proposed change in the claim's sense: cleaned
path equal to or nested under a protected entry, a parent-directory
traversal segment in the cleaned path, an action outside
create/modify/delete, or content over the 1 MiB ceiling. -/
def claimInvalid (c : FileChange) : Prop :=
  (∃ prot ∈ protectedPaths,
      pathClean c.path = prot ∨ strHasPre (pathClean c.path) (prot ++ "/") = true) ∨
  (pathClean c.path = ".." ∨ strHasPre (pathClean c.path) "../" = true ∨
    strHasSub (pathClean c.path) "/../" = true ∨
    strHasSuf (pathClean c.path) "/.." = true) ∨
  (c.action ≠ "create" ∧ c.action ≠ "modify" ∧ c.action ≠ "delete") ∨
  c.newContent.utf8ByteSize > 1048576

theorem setStatus_same (e : EngineState) (n : Nat) (st : String) (cr : ChangeRequest)
    (h : e.heap[n]? = some cr) :
    (setStatus e n st).heap[n]? = some { cr with status := st } := by
  have hlt : n < e.heap.length := (List.getElem?_eq_some_iff.mp h).1
  simp [setStatus, h, List.getElem?_set_self hlt]

theorem filterMap_core_set (heap : List ChangeRequest) (n : Nat) (cr cr' : ChangeRequest)
    (hcr : heap[n]? = some cr) (hcore : requestCore cr' = requestCore cr) :
    ∀ hist : List Nat,
      ((hist.filterMap (fun m => (heap.set n cr')[m]?)).map requestCore)
        = (hist.filterMap (fun m => heap[m]?)).map requestCore := by
  intro hist
  induction hist with
  | nil => rfl
  | cons m rest ih =>
    by_cases hmn : n = m
    · subst hmn
      have hlt : n < heap.length := (List.getElem?_eq_some_iff.mp hcr).1
      simp [List.filterMap_cons, List.getElem?_set_self hlt, hcr, ih, hcore]
    · cases hm : heap[m]? with
      | none => simp [List.filterMap_cons, List.getElem?_set_ne hmn, hm, ih]
      | some x => simp [List.filterMap_cons, List.getElem?_set_ne hmn, hm, ih]

theorem setStatus_history_core (e : EngineState) (n : Nat) (st : String) :
    (historyList (setStatus e n st)).map requestCore
      = (historyList e).map requestCore := by
  unfold setStatus
  cases hcr : e.heap[n]? with
  | none => rfl
  | some cr =>
    simpa [historyList] using
      filterMap_core_set e.heap n cr { cr with status := st } hcr rfl e.history

theorem applyList_no_osFail (osFail : String → Bool) (cs : List FileChange) :
    ∀ fs : Fs, (∀ c ∈ cs, osFail c.path = false) →
      applyList osFail fs cs = (none, applyPure fs cs) := by
  induction cs with
  | nil => intro fs _; rfl
  | cons c rest ih =>
    intro fs h
    have hc : osFail c.path = false := h c (List.mem_cons_self c rest)
    have hr : ∀ x ∈ rest, osFail x.path = false := fun x hx => h x (List.mem_cons_of_mem c hx)
    by_cases h1 : c.action = "create" ∨ c.action = "modify"
    · simp [applyList, applyOne, applyPure, h1, hc, ih _ hr]
    · by_cases h2 : c.action = "delete"
      · simp [applyList, applyOne, applyPure, h1, h2, hc, ih _ hr]
      · simp [applyList, applyOne, applyPure, h1, h2, ih _ hr]

theorem approveAndApply_not_pending (osFail : String → Bool) (e : EngineState) (fs : Fs)
    (id : String) (n : Nat) (cr : ChangeRequest)
    (hl : lookupReq e id = some n) (hh : e.heap[n]? = some cr)
    (hnp : cr.status ≠ "pending") :
    approveAndApply osFail e fs id = ⟨some (ApplyErr.invalidState cr.status), e, fs⟩ := by
  simp [approveAndApply, hl, hh, hnp]

theorem approveAndApply_pending (osFail : String → Bool) (e : EngineState) (fs : Fs)
    (id : String) (n : Nat) (cr : ChangeRequest)
    (hl : lookupReq e id = some n) (hh : e.heap[n]? = some cr)
    (hp : cr.status = "pending") (hos : ∀ c ∈ cr.changes, osFail c.path = false) :
    approveAndApply osFail e fs id = ⟨none, setStatus e n "approved", applyPure fs cr.changes⟩ := by
  simp [approveAndApply, hl, hh, hp, applyList_no_osFail osFail cr.changes fs hos]

theorem approveAndApply_engine_cases (osFail : String → Bool) (e : EngineState) (fs : Fs)
    (id : String) :
    (approveAndApply osFail e fs id).engine = e ∨
    ∃ n, (approveAndApply osFail e fs id).engine = setStatus e n "approved" := by
  cases hl : lookupReq e id with
  | none => exact Or.inl (by simp [approveAndApply, hl])
  | some n =>
    cases hh : e.heap[n]? with
    | none => exact Or.inl (by simp [approveAndApply, hl, hh])
    | some cr =>
      by_cases hp : cr.status = "pending"
      · cases hap : applyList osFail fs cr.changes with
        | mk errOpt fs' =>
          cases errOpt with
          | none => exact Or.inr ⟨n, by simp [approveAndApply, hl, hh, hp, hap]⟩
          | some err => exact Or.inl (by simp [approveAndApply, hl, hh, hp, hap])
      · exact Or.inl (by simp [approveAndApply, hl, hh, hp])


/-- Claim C6: envelope encoding and decoding round-trip — for every envelope
whose payload is a valid encoded value (an abstract JSON value, `none` for
an omitted payload), decoding the marshalled bytes recovers the envelope. -/
theorem envelope_roundtrip (e : Envelope) :
    decodeEnvelope (encodeEnvelope e) = some e := by
  cases e with
  | mk t p => cases p <;> rfl

/-- Claim C7: `Client.Send` on a full outbound queue fails immediately with the
buffer-full (backpressure) error and leaves the queue as is, and on a
queue with room enqueues the serialized envelope and succeeds. -/
theorem send_backpressure (queue : List Json) (env : Envelope) :
    (queue.length ≥ sendCapacity →
      clientSend queue env = Except.error SendErr.bufferFull) ∧
    (queue.length < sendCapacity →
      clientSend queue env = Except.ok (queue ++ [encodeEnvelope env])) := by
  constructor
  · intro h; unfold clientSend; rw [if_neg (by omega)]
  · intro h; unfold clientSend; rw [if_pos h]

/-- Witness for `send_backpressure` at a full queue of 256 entries and at
the empty queue. -/
theorem send_backpressure_w :
    clientSend (List.replicate 256 Json.null) ⟨"chat.chunk", none⟩
      = Except.error SendErr.bufferFull ∧
    clientSend [] ⟨"chat.chunk", none⟩
      = Except.ok [encodeEnvelope ⟨"chat.chunk", none⟩] := by
  constructor
  · exact (send_backpressure (List.replicate 256 Json.null) ⟨"chat.chunk", none⟩).1
      (by rw [List.length_replicate]; simp [sendCapacity])
  · exact (send_backpressure [] ⟨"chat.chunk", none⟩).2 (by simp [sendCapacity])

/-- Claim C2, counterexample: on the reachable state `e2`, whose only request
`req-1` has terminal status `approved`, `Reject` does not fail — it
succeeds and overwrites the status with `rejected`, so the status after
the call differs from the status before. -/
theorem reject_approved_succeeds :
    (getRequest e2 "req-1").map (fun cr => cr.status) = some "approved" ∧
    (reject e2 "req-1").err = none ∧
    (getRequest (reject e2 "req-1").engine "req-1").map (fun cr => cr.status)
      = some "rejected" := by
  decide

/-- Claim C2, amended: `Reject` fails (with not-found) only for an unknown id,
leaving the state unchanged; for every stored request, whatever its
current status — also `approved` or `rejected` — it succeeds and
overwrites the status with `rejected`. -/
theorem reject_unconditional (e : EngineState) (id : String) :
    (lookupReq e id = none →
      reject e id = ⟨some (RejectErr.notFound id), e⟩) ∧
    (∀ n cr, lookupReq e id = some n → e.heap[n]? = some cr →
      (reject e id).err = none ∧
      (reject e id).engine.heap[n]? = some { cr with status := "rejected" }) := by
  constructor
  · intro h; simp [reject, h]
  · intro n cr hl hh
    refine ⟨by simp [reject, hl], ?_⟩
    simpa [reject, hl] using setStatus_same e n "rejected" cr hh

/-- Witness for `reject_unconditional`: the unknown id `nope` fails on
`e2`, and `req-1` (status `approved`) is overwritten to `rejected`. -/
theorem reject_unconditional_w :
    reject e2 "nope" = ⟨some (RejectErr.notFound "nope"), e2⟩ ∧
    ((reject e2 "req-1").err = none ∧
      (reject e2 "req-1").engine.heap[0]? =
        some { cr0 with status := "rejected" }) := by
  constructor
  · exact (reject_unconditional e2 "nope").1 (by decide)
  · have h := (reject_unconditional e2 "req-1").2 0 { cr0 with status := "approved" }
      (by decide) (by decide)
    exact ⟨h.1, h.2⟩

/-- Claim C3, counterexample: the history entry for `req-1` shows status
`pending` right after creation, but after the later `approveAndApply`
transition the same `history()` entry shows `approved` — later status
transitions do change what history returns. -/
theorem history_reflects_transition :
    (historyList e1).map (fun cr => cr.status) = ["pending"] ∧
    appRes0.err = none ∧
    (historyList e2).map (fun cr => cr.status) = ["approved"] := by
  decide

/-- Claim C3, amended: history is append-only and a later `approveAndApply` or
`reject` never changes a history entry's id, description, changes, diffs
or creation time — but the status field of history entries aliases the
live store (the Go history slice holds the same pointers), so status
transitions are visible through `history()` as well. -/
theorem history_core_immutable (osFail : String → Bool) (e : EngineState) (fs : Fs)
    (id : String) :
    ((historyList (approveAndApply osFail e fs id).engine).map requestCore
      = (historyList e).map requestCore) ∧
    ((historyList (reject e id).engine).map requestCore
      = (historyList e).map requestCore) := by
  constructor
  · rcases approveAndApply_engine_cases osFail e fs id with h | ⟨n, h⟩
    · rw [h]
    · rw [h, setStatus_history_core]
  · cases hl : lookupReq e id with
    | none => simp [reject, hl]
    | some n => simp [reject, hl, setStatus_history_core]

/-- Claim C8, counterexample: with no configured engine, `handleSelfModReject`
still emits exactly the `rejected` status envelope — no configuration
error envelope is sent. -/
theorem reject_handler_emits_rejected_without_engine :
    handleSelfModReject none "req-9" =
      ⟨[HandlerEmit.statusEnv ⟨"req-9", "rejected", ""⟩], none⟩ := by
  rfl

/-- Claim C8, amended: `handleSelfModReject` calls the engine's `reject` only
when an engine is configured (discarding its error) and then reports the
`rejected` status unconditionally; with no engine configured it does not
crash and still reports `rejected`, not a configuration error. -/
theorem reject_handler_unconditional_status (engineOpt : Option EngineState)
    (id : String) :
    ((handleSelfModReject engineOpt id).emits
      = [HandlerEmit.statusEnv ⟨id, "rejected", ""⟩]) ∧
    (∀ e n cr, engineOpt = some e → lookupReq e id = some n → e.heap[n]? = some cr →
      (handleSelfModReject engineOpt id).engine.map
          (fun e' => e'.heap[n]?)
        = some (some { cr with status := "rejected" })) := by
  constructor
  · rfl
  · intro e n cr heo hl hh
    subst heo
    simpa [handleSelfModReject, reject, hl] using setStatus_same e n "rejected" cr hh

/-- Witness for `reject_handler_unconditional_status` on `e1`. -/
theorem reject_handler_unconditional_status_w :
    ((handleSelfModReject (some e1) "req-1").emits
      = [HandlerEmit.statusEnv ⟨"req-1", "rejected", ""⟩]) ∧
    (handleSelfModReject (some e1) "req-1").engine.map (fun e' => e'.heap[0]?)
      = some (some { cr0 with status := "rejected" }) := by
  refine ⟨(reject_handler_unconditional_status (some e1) "req-1").1, ?_⟩
  exact (reject_handler_unconditional_status (some e1) "req-1").2 e1 0 cr0
    rfl (by decide) (by decide)

/-- Claim C10: a `chat.send` or `selfmod.request` payload with an empty
`provider_id` selects the provider registered as `anthropic`; the message
is not rejected for the missing field, and an error arises only when no
`anthropic` provider is registered. -/
theorem empty_provider_defaults_anthropic (llms : List String)
    (msgs : List Message) (req : String) :
    (llms.contains "anthropic" = true →
      handleChatSendLLM llms ⟨msgs, ""⟩ = Except.ok "anthropic" ∧
      handleSelfModRequestLLM llms ⟨req, ""⟩ = Except.ok "anthropic") ∧
    (llms.contains "anthropic" = false →
      handleChatSendLLM llms ⟨msgs, ""⟩
        = Except.error ("LLM provider " ++ "anthropic" ++ " not found") ∧
      handleSelfModRequestLLM llms ⟨req, ""⟩
        = Except.error ("LLM provider " ++ "anthropic" ++ " not found")) := by
  constructor
  · intro h
    have hm : "anthropic" ∈ llms := by simpa using h
    constructor <;> simp [handleChatSendLLM, handleSelfModRequestLLM, getLLM, hm]
  · intro h
    have hm : "anthropic" ∉ llms := by simpa using h
    constructor <;> simp [handleChatSendLLM, handleSelfModRequestLLM, getLLM, hm]

/-- Witness for `empty_provider_defaults_anthropic` with a registry that
has `anthropic` and one that lacks it. -/
theorem empty_provider_defaults_anthropic_w :
    (handleChatSendLLM ["anthropic", "gemini"] ⟨[], ""⟩ = Except.ok "anthropic" ∧
      handleSelfModRequestLLM ["anthropic", "gemini"] ⟨"r", ""⟩ = Except.ok "anthropic") ∧
    (handleChatSendLLM ["gemini"] ⟨[], ""⟩
        = Except.error ("LLM provider " ++ "anthropic" ++ " not found") ∧
      handleSelfModRequestLLM ["gemini"] ⟨"r", ""⟩
        = Except.error ("LLM provider " ++ "anthropic" ++ " not found")) := by
  constructor
  · exact (empty_provider_defaults_anthropic ["anthropic", "gemini"] [] "r").1 (by rfl)
  · exact (empty_provider_defaults_anthropic ["gemini"] [] "r").2 (by rfl)

/-- Claim C1: `ApproveAndApply` flips a request's status to `approved` only if
it is currently `pending` — for any other status it fails with the
invalid-state error and leaves engine state and working tree unchanged —
and on a pending request (absent operating-system failures) it applies
every `FileChange` to the working tree in list order (the pure left fold
`applyPure`) and flips the status to `approved`. -/
theorem approve_atomic_status (osFail : String → Bool) (e : EngineState) (fs : Fs)
    (id : String) (n : Nat) (cr : ChangeRequest)
    (hl : lookupReq e id = some n) (hh : e.heap[n]? = some cr) :
    (cr.status ≠ "pending" →
      approveAndApply osFail e fs id
        = ⟨some (ApplyErr.invalidState cr.status), e, fs⟩) ∧
    (cr.status = "pending" → (∀ c ∈ cr.changes, osFail c.path = false) →
      approveAndApply osFail e fs id
          = ⟨none, setStatus e n "approved", applyPure fs cr.changes⟩ ∧
      (approveAndApply osFail e fs id).engine.heap[n]?
          = some { cr with status := "approved" }) := by
  constructor
  · intro hnp
    exact approveAndApply_not_pending osFail e fs id n cr hl hh hnp
  · intro hp hos
    have happ := approveAndApply_pending osFail e fs id n cr hl hh hp hos
    refine ⟨happ, ?_⟩
    rw [happ]
    exact setStatus_same e n "approved" cr hh

/-- Witness for `approve_atomic_status`: the non-pending half on `e2`
(status `approved`) and the pending half on `e1`. -/
theorem approve_atomic_status_w :
    (approveAndApply (fun _ => false) e2 [] "req-1"
        = ⟨some (ApplyErr.invalidState "approved"), e2, []⟩) ∧
    (approveAndApply (fun _ => false) e1 [] "req-1"
        = ⟨none, setStatus e1 0 "approved", applyPure [] cr0.changes⟩) := by
  constructor
  · exact (approve_atomic_status (fun _ => false) e2 [] "req-1" 0
      { cr0 with status := "approved" } (by decide) (by decide)).1 (by decide)
  · exact ((approve_atomic_status (fun _ => false) e1 [] "req-1" 0 cr0
      (by decide) (by decide)).2 rfl (by decide)).1

/-- Claim C5: in the publish sequence for a found pending request with version
control configured, when branch creation succeeds, the apply and commit
steps succeed, and the push step fails, the emitted `selfmod.status`
sequence is exactly `pushing` (branch creation), `applying`, `pushing`
(commit), `error`, and `pr_created` is never emitted — the failing push
halts the sequence before the PR step. -/
theorem publish_push_fail_sequence (osFail : String → Bool) (g : GitOracle)
    (e : EngineState) (fs : Fs) (id : String) (n : Nat) (cr : ChangeRequest)
    (hl : lookupReq e id = some n) (hh : e.heap[n]? = some cr)
    (hp : cr.status = "pending") (hos : ∀ c ∈ cr.changes, osFail c.path = false)
    (hbr : g.createBranchOk = true) (hcm : g.commitOk = true)
    (hpu : g.pushOk = false) :
    ((handleSelfModApprove osFail true g e fs id).emits.map (fun s => s.status)
      = ["pushing", "applying", "pushing", "error"]) ∧
    "pr_created" ∉ (handleSelfModApprove osFail true g e fs id).emits.map
        (fun s => s.status) := by
  have hget : getRequest e id = some cr := by simp [getRequest, hl, hh]
  have happ := approveAndApply_pending osFail e fs id n cr hl hh hp hos
  have hemits : (handleSelfModApprove osFail true g e fs id).emits
      = [⟨id, "pushing", ""⟩, ⟨id, "applying", ""⟩, ⟨id, "pushing", ""⟩,
         ⟨id, "error", ""⟩] := by
    simp [handleSelfModApprove, hget, hbr, happ, hcm, hpu]
  refine ⟨by simp [hemits], ?_⟩
  rw [hemits]
  simp

/-- Witness for `publish_push_fail_sequence` on `e1` with a git oracle
whose push fails. -/
theorem publish_push_fail_sequence_w :
    ((handleSelfModApprove (fun _ => false) true ⟨true, true, false, true, "u", true⟩
        e1 [] "req-1").emits.map (fun s => s.status)
      = ["pushing", "applying", "pushing", "error"]) ∧
    "pr_created" ∉ (handleSelfModApprove (fun _ => false) true
        ⟨true, true, false, true, "u", true⟩ e1 [] "req-1").emits.map
        (fun s => s.status) := by
  exact publish_push_fail_sequence (fun _ => false)
    ⟨true, true, false, true, "u", true⟩ e1 [] "req-1" 0 cr0
    (by decide) (by decide) rfl (by decide) rfl rfl rfl

theorem hasInfixL_iff (sub l : List Char) : hasInfixL sub l = true ↔ sub <:+: l := by
  induction l with
  | nil => simp [hasInfixL, List.isEmpty_iff]
  | cons c rest ih =>
    simp [hasInfixL, List.infix_cons_iff, ih, List.isPrefixOf_iff_prefix]

theorem strHasPre_of_protCase (clean prot : String)
    (h : clean = prot ∨ strHasPre clean (prot ++ "/") = true) :
    strHasPre clean prot = true := by
  rcases h with rfl | h
  · exact List.isPrefixOf_iff_prefix.mpr (List.prefix_refl _)
  · unfold strHasPre at h ⊢
    rw [ List.isPrefixOf_iff_prefix] at h ⊢
    have h2 : prot.toList <+: (prot ++ "/").toList := by
      show prot.data <+: (prot ++ "/").data
      rw [String.data_append]
      exact List.prefix_append _ _
    exact h2.trans h

theorem strHasSub_dotdot_of_traversal (clean : String)
    (h : clean = ".." ∨ strHasPre clean "../" = true ∨
      strHasSub clean "/../" = true ∨ strHasSuf clean "/.." = true) :
    strHasSub clean ".." = true := by
  unfold strHasSub
  rw [hasInfixL_iff]
  rcases h with rfl | h | h | h
  · exact List.infix_refl _
  · unfold strHasPre at h
    rw [ List.isPrefixOf_iff_prefix] at h
    have hstep : ("..".toList) <+: ("../".toList) := by decide
    exact List.IsPrefix.isInfix (hstep.trans h)
  · unfold strHasSub at h
    rw [hasInfixL_iff] at h
    have hstep : ("..".toList) <:+: ("/../".toList) := by
      rw [← hasInfixL_iff]; decide
    exact hstep.trans h
  · unfold strHasSuf at h
    rw [List.isSuffixOf_iff_suffix] at h
    have hstep : ("..".toList) <:+ ("/..".toList) := by decide
    exact List.IsSuffix.isInfix (hstep.trans h)


theorem validateChange_isSome_of_claimInvalid (c : FileChange) (h : claimInvalid c) :
    (validateChange c).isSome = true := by
  unfold validateChange
  by_cases h1 : protectedPaths.any (fun prot => strHasPre (pathClean c.path) prot) = true
  · simp [h1]
  · by_cases h2 : strHasSub (pathClean c.path) ".." = true
    · simp [h1, h2]
    · by_cases h3 : c.action = "create" ∨ c.action = "modify" ∨ c.action = "delete"
      · by_cases h4 : c.newContent.utf8ByteSize > 1048576
        · simp [h1, h2, h3, h4]
        · exfalso
          rcases h with ⟨prot, hmem, hcase⟩ | htrav | hact | hsize
          · exact h1 (List.any_eq_true.mpr ⟨prot, hmem,
              strHasPre_of_protCase (pathClean c.path) prot hcase⟩)
          · exact h2 (strHasSub_dotdot_of_traversal (pathClean c.path) htrav)
          · rcases h3 with h3 | h3 | h3
            · exact hact.1 h3
            · exact hact.2.1 h3
            · exact hact.2.2 h3
          · exact h4 hsize
      · simp [h1, h2, h3]

theorem validateAll_isSome (cs : List FileChange) (c : FileChange) (hc : c ∈ cs)
    (h : (validateChange c).isSome = true) : (validateAll cs).isSome = true := by
  induction cs with
  | nil => cases hc
  | cons d rest ih =>
    cases hd : validateChange d with
    | some err => simp [validateAll, hd]
    | none =>
      rcases List.mem_cons.mp hc with rfl | hmem
      · rw [hd] at h; simp at h
      · simpa [validateAll, hd] using ih hmem

/-- Claim C4: generation is all-or-nothing with respect to validation — if any
single proposed change is invalid (protected path, traversal segment,
unknown action, or over the size ceiling), `GenerateChanges` returns a
validation error, stores no request in the live table, and appends
nothing to history. -/
theorem generation_all_or_nothing (dmp : String → String → String) (e : EngineState)
    (fs : Fs) (description : String) (changes : List FileChange)
    (freshId : String) (now : Nat)
    (h : ∃ c ∈ changes, claimInvalid c) :
    ((generateChanges dmp e fs description changes freshId now).err.isSome = true) ∧
    (generateChanges dmp e fs description changes freshId now).engine = e ∧
    (generateChanges dmp e fs description changes freshId now).request = none := by
  obtain ⟨c, hc, hinv⟩ := h
  have hv := validateAll_isSome changes c hc (validateChange_isSome_of_claimInvalid c hinv)
  obtain ⟨err, herr⟩ := Option.isSome_iff_exists.mp hv
  refine ⟨?_, ?_, ?_⟩ <;> simp [generateChanges, herr]

/-- Witness for `generation_all_or_nothing`: a single change targeting the
protected `Dockerfile` fails the whole generation and leaves the engine
empty. -/
theorem generation_all_or_nothing_w :
    (∃ c ∈ [(⟨"Dockerfile", "modify", "FROM scratch"⟩ : FileChange)], claimInvalid c) ∧
    ((generateChanges dmp0 newEngine [] "d"
        [⟨"Dockerfile", "modify", "FROM scratch"⟩] "id1" 0).err.isSome = true) ∧
    (generateChanges dmp0 newEngine [] "d"
        [⟨"Dockerfile", "modify", "FROM scratch"⟩] "id1" 0).engine = newEngine ∧
    (generateChanges dmp0 newEngine [] "d"
        [⟨"Dockerfile", "modify", "FROM scratch"⟩] "id1" 0).request = none := by
  have hx : ∃ c ∈ [(⟨"Dockerfile", "modify", "FROM scratch"⟩ : FileChange)], claimInvalid c :=
    ⟨⟨"Dockerfile", "modify", "FROM scratch"⟩, by decide,
      Or.inl ⟨"Dockerfile", by decide, Or.inl (by decide)⟩⟩
  have hres := generation_all_or_nothing dmp0 newEngine [] "d"
    [⟨"Dockerfile", "modify", "FROM scratch"⟩] "id1" 0 hx
  exact ⟨hx, hres.1, hres.2.1, hres.2.2⟩

/-- Claim C9: protected-path validation is plain string-prefix matching on the
cleaned path — every change whose cleaned path begins with the character
sequence of some protected entry is rejected with the protected-path
error, whether or not the path is that file or nested under it. -/
theorem protected_string_match_rejects (c : FileChange) (prot : String)
    (hmem : prot ∈ protectedPaths)
    (hpre : strHasPre (pathClean c.path) prot = true) :
    validateChange c = some (ValidationError.protectedPath c.path) := by
  have hany : protectedPaths.any (fun p => strHasPre (pathClean c.path) p) = true :=
    List.any_eq_true.mpr ⟨prot, hmem, hpre⟩
  simp [validateChange, hany]

/-- Witness for `protected_string_match_rejects`: `Dockerfile.backup`
begins with `Dockerfile` yet is neither that file nor nested under it, and
is still rejected as a protected path. -/
theorem protected_string_match_rejects_w :
    (strHasPre (pathClean "Dockerfile.backup") "Dockerfile" = true ∧
      pathClean "Dockerfile.backup" ≠ "Dockerfile" ∧
      strHasPre (pathClean "Dockerfile.backup") ("Dockerfile" ++ "/") = false) ∧
    validateChange ⟨"Dockerfile.backup", "modify", "x"⟩
      = some (ValidationError.protectedPath "Dockerfile.backup") := by
  refine ⟨⟨by decide, by decide, by decide⟩, ?_⟩
  exact protected_string_match_rejects ⟨"Dockerfile.backup", "modify", "x"⟩ "Dockerfile"
    (by decide) (by decide)
